import Mathlib

/-!
Shallow embedding of the xkpasswd-rs policy engine (src/settings/mod.rs).

Rust `u8`/`usize` fields are modelled as `Nat`; no arithmetic in the
embedded code wraps for inputs reachable through the API, and where a
bound matters (the 20-digit cap in `rand_digits`, the `u64::MAX`
sampling bound) it is written explicitly.  Rust `String`/`&str` values
are modelled as `List Char`; the UTF-8 byte length of a string, which
the source uses for index ranges and slicing, is computed from
`Char.utf8Size`.  A call that would panic in Rust (an `unwrap` of
`None`, a slice not on a char boundary, an empty sampling range) is
modelled as returning `none`.

Randomness: every random draw in the source comes from
`rand::thread_rng` through `Uniform::from(0..n).sample` or
`gen_range(0..n)`.  The embedding threads an explicit draw stream
`rng : Nat → Nat`; a draw from `0..n` is modelled as `rng k % n`, so a
uniform stream induces uniform draws.  The reject-and-resample loop of
the distinct-words branch takes explicit fuel and returns `none` when
the fuel is exhausted (the Rust loop is unbounded and terminates with
probability one).
-/

/-- Modelled from the spec: the `PaddingStrategy` variant type of the
`prelude` module, which is not part of the provided sources; its shape
(`Fixed | Adaptive(target)` with a `u8` target) is fixed by §3 of the
spec and by every use in `settings/mod.rs`. -/
inductive PaddingStrategy where
  | Fixed : PaddingStrategy
  | Adaptive : Nat → PaddingStrategy
deriving DecidableEq

/-- Modelled from the spec: the `PaddingResult` decision type of the
`prelude` module (not in the provided sources); its three variants are
fixed by the uses in `adjust_padding`. -/
inductive PaddingResult where
  | Unchanged : PaddingResult
  | Pad : List Char → PaddingResult
  | TrimTo : Nat → PaddingResult
deriving DecidableEq

/-- Modelled from the spec: the `WordTransform` flag enumeration of the
`bit_flags` module (not in the provided sources); the six variants are
listed in §3 of the spec. -/
inductive WordTransform where
  | Lowercase : WordTransform
  | Titlecase : WordTransform
  | Uppercase : WordTransform
  | InversedTitlecase : WordTransform
  | AltercaseLowerFirst : WordTransform
  | AltercaseUpperFirst : WordTransform
deriving DecidableEq, Inhabited

/-- Modelled from the spec: the bitmask value of each flag (§9: a
C-style bitmask with boolean flag tests).  The source comment
`0b00000101 // WordTransform::Lowercase | WordTransform::Uppercase` in
`settings/mod.rs` fixes `Lowercase = 1` and `Uppercase = 4`; the
remaining flags occupy the remaining distinct bits in declaration
order. -/
def WordTransform.val : WordTransform → Nat
  | .Lowercase => 1
  | .Titlecase => 2
  | .Uppercase => 4
  | .InversedTitlecase => 8
  | .AltercaseLowerFirst => 16
  | .AltercaseUpperFirst => 32

/-- Modelled from the spec: `FieldSize::has_flag` of the `bit_flags`
module (not in the provided sources): a boolean test of the flag's bit,
as described in §9. -/
def hasFlag (fs : Nat) (t : WordTransform) : Bool :=
  fs &&& t.val != 0

/-- The settings record (struct `Settings` in `settings/mod.rs`). -/
structure Settings where
  words_count : Nat
  word_lengths : Nat × Nat
  word_transforms : Nat
  separators : List Char
  padding_digits : Nat × Nat
  padding_symbols : List Char
  padding_symbol_lengths : Nat × Nat
  padding_strategy : PaddingStrategy
deriving DecidableEq

def MIN_WORD_LENGTH : Nat := 4

def MAX_WORD_LENGTH : Nat := 10

def MIN_WORD_LENGTH_ERR : String := "min word length must be 4 or higher"

def MAX_WORD_LENGTH_ERR : String := "max word length must be 10 or lower"

def DEFAULT_PADDING_LENGTH : Nat := 2

/-- `impl Default for Settings`. -/
def defaultSettings : Settings where
  words_count := 3
  word_lengths := (MIN_WORD_LENGTH, MAX_WORD_LENGTH)
  word_transforms := 5
  separators := ".-_~".toList
  padding_digits := (0, DEFAULT_PADDING_LENGTH)
  padding_symbols := "~@$%^&*-_+=:|~?/.;".toList
  padding_symbol_lengths := (0, DEFAULT_PADDING_LENGTH)
  padding_strategy := PaddingStrategy.Fixed

/-- `Builder::with_words_count`. -/
def Settings.with_words_count (s : Settings) (words_count : Nat) :
    Except String Settings :=
  if words_count = 0 then
    .error "only positive integer is allowed for words count"
  else
    .ok { s with words_count := words_count }

/-- `Builder::with_word_lengths`. -/
def Settings.with_word_lengths (s : Settings)
    (min_length max_length : Option Nat) : Except String Settings :=
  let minL := min_length.getD s.word_lengths.1
  let maxL := max_length.getD s.word_lengths.2
  let lo := Nat.min minL maxL
  let hi := Nat.max minL maxL
  if lo < MIN_WORD_LENGTH then
    .error MIN_WORD_LENGTH_ERR
  else if hi > MAX_WORD_LENGTH then
    .error MAX_WORD_LENGTH_ERR
  else
    .ok { s with word_lengths := (lo, hi) }

/-- `Builder::with_separators`. -/
def Settings.with_separators (s : Settings) (separators : List Char) :
    Settings :=
  { s with separators := separators }

/-- `Builder::with_padding_digits`. -/
def Settings.with_padding_digits (s : Settings) (pfx sfx : Option Nat) :
    Settings :=
  if pfx = none ∧ sfx = none then s
  else
    { s with
      padding_digits := (pfx.getD s.padding_digits.1, sfx.getD s.padding_digits.2) }

/-- `Builder::with_padding_symbols`. -/
def Settings.with_padding_symbols (s : Settings) (symbols : List Char) :
    Settings :=
  { s with padding_symbols := symbols }

/-- `Builder::with_padding_symbol_lengths`. -/
def Settings.with_padding_symbol_lengths (s : Settings)
    (pfx sfx : Option Nat) : Settings :=
  if pfx = none ∧ sfx = none then s
  else
    { s with
      padding_symbol_lengths :=
        (pfx.getD s.padding_symbol_lengths.1, sfx.getD s.padding_symbol_lengths.2),
      padding_strategy := PaddingStrategy.Fixed }

/-- `Builder::with_padding_strategy`. -/
def Settings.with_padding_strategy (s : Settings)
    (strategy : PaddingStrategy) : Except String Settings :=
  match strategy with
  | .Adaptive 0 => .error "invalid adaptive padding number"
  | _ =>
    .ok { s with
          padding_strategy := strategy,
          padding_symbol_lengths := (0, 0) }

/-- `Builder::with_word_transforms`. -/
def Settings.with_word_transforms (s : Settings) (transforms : Nat) :
    Except String Settings :=
  if hasFlag transforms .AltercaseLowerFirst then
    .ok { s with word_transforms := WordTransform.AltercaseLowerFirst.val }
  else if hasFlag transforms .AltercaseUpperFirst then
    .ok { s with word_transforms := WordTransform.AltercaseUpperFirst.val }
  else if !hasFlag transforms .Lowercase ∧ !hasFlag transforms .Titlecase ∧
      !hasFlag transforms .Uppercase ∧ !hasFlag transforms .InversedTitlecase then
    .error "invalid transform"
  else
    .ok { s with word_transforms := transforms }

/-- Modelled from the spec: the `Preset` enumeration of the `prelude`
module (not in the provided sources); the variant names are those
matched in `Builder::from_preset` in `settings/mod.rs`, plus the
`Default` variant reaching the wildcard arm (§4.1: an unrecognized name
yields the baseline default policy). -/
inductive Preset where
  | AppleID : Preset
  | Default : Preset
  | WindowsNtlmV1 : Preset
  | SecurityQuestions : Preset
  | Web16 : Preset
  | Web32 : Preset
  | Wifi : Preset
  | Xkcd : Preset
deriving DecidableEq

/-- `Builder::from_preset`. -/
def from_preset : Preset → Settings
  | .AppleID =>
    { words_count := 3
      word_lengths := (5, 7)
      word_transforms := 5
      separators := "-:.,".toList
      padding_digits := (2, 2)
      padding_symbols := "!?@&".toList
      padding_symbol_lengths := (1, 1)
      padding_strategy := PaddingStrategy.Fixed }
  | .WindowsNtlmV1 =>
    { words_count := 2
      word_lengths := (5, 5)
      word_transforms := 8
      separators := "-+=.*_|~,".toList
      padding_digits := (1, 0)
      padding_symbols := "!@$%^&*+=:|~?".toList
      padding_symbol_lengths := (0, 1)
      padding_strategy := PaddingStrategy.Fixed }
  | .SecurityQuestions =>
    { words_count := 6
      word_lengths := (4, 8)
      word_transforms := 1
      separators := " ".toList
      padding_digits := (0, 0)
      padding_symbols := ".!?".toList
      padding_symbol_lengths := (0, 1)
      padding_strategy := PaddingStrategy.Fixed }
  | .Web16 =>
    { words_count := 3
      word_lengths := (4, 4)
      word_transforms := 5
      separators := "-+=.*_|~,".toList
      padding_digits := (0, 0)
      padding_symbols := "!@$%^&*+=:|~?".toList
      padding_symbol_lengths := (1, 1)
      padding_strategy := PaddingStrategy.Fixed }
  | .Web32 =>
    { words_count := 4
      word_lengths := (4, 5)
      word_transforms := 32
      separators := "-+=.*_|~,".toList
      padding_digits := (2, 2)
      padding_symbols := "!@$%^&*+=:|~?".toList
      padding_symbol_lengths := (1, 1)
      padding_strategy := PaddingStrategy.Fixed }
  | .Wifi =>
    { words_count := 6
      word_lengths := (4, 8)
      word_transforms := 5
      separators := "-+=.*_|~,".toList
      padding_digits := (4, 4)
      padding_symbols := "!@$%^&*+=:|~?".toList
      padding_symbol_lengths := (0, 0)
      padding_strategy := PaddingStrategy.Adaptive 63 }
  | .Xkcd =>
    { words_count := 4
      word_lengths := (4, 8)
      word_transforms := 5
      separators := "-".toList
      padding_digits := (0, 0)
      padding_symbols := []
      padding_symbol_lengths := (0, 0)
      padding_strategy := PaddingStrategy.Fixed }
  | .Default => defaultSettings

/-- The UTF-8 byte length of a string (Rust `str::len`), computed from
the byte size of each scalar value. -/
def utf8ByteLen (cs : List Char) : Nat :=
  (cs.map Char.utf8Size).sum

/-- Free function `rand_chars` in `settings/mod.rs`.  The source draws
`idx = rng.gen_range(0..pool.len())` over the BYTE length of the pool,
then takes `pool.chars().nth(idx)` — a CHAR index — and `unwrap`s it;
when the pool contains multi-byte characters the `nth` can be `None`
and the `unwrap` panics, modelled here as `none`.  `draw` models the
`gen_range` sample as `draw % byte_length`. -/
def rand_chars (pool : List Char) (count : Nat) (draw : Nat) :
    Option (List Char) :=
  if pool.isEmpty then some []
  else
    match pool.get? (draw % utf8ByteLen pool) with
    | none => none
    | some c => some (List.replicate count c)

/-- Little-endian decimal digits of `n`, with explicit fuel so that the
recursion is structural (`decDigitsAux n n` computes all digits of `n`,
since `n` has at most `n` digits). -/
def decDigitsAux : Nat → Nat → List Nat
  | 0, _ => []
  | fuel + 1, n => if n = 0 then [] else n % 10 :: decDigitsAux fuel (n / 10)

/-- The most-significant-first decimal digit list of `n`: models Rust
`u64::to_string` (whose characters are exactly these digits). -/
def natToDecimal (n : Nat) : List Nat :=
  (decDigitsAux n n).reverse

/-- The lower bound of the sampling range in `rand_digits`:
`10^(affordable_count - 1)` with `affordable_count = min 20 count`. -/
def randDigitsLower (count : Nat) : Nat :=
  10 ^ (Nat.min 20 count - 1)

/-- The upper (exclusive) bound of the sampling range in `rand_digits`:
`u64::MAX = 2^64 - 1` when `affordable_count = 20`, else
`10^affordable_count`. -/
def randDigitsUpper (count : Nat) : Nat :=
  if Nat.min 20 count = 20 then 2 ^ 64 - 1 else 10 ^ Nat.min 20 count

/-- The value sampled by `rand_digits` from
`Uniform::from(lower_bound..upper_bound)`, with the draw modelled as
`lower + draw % (upper - lower)`. -/
def randDigitsVal (count draw : Nat) : Nat :=
  randDigitsLower count + draw % (randDigitsUpper count - randDigitsLower count)

/-- Free function `rand_digits` in `settings/mod.rs`, returning the
decimal digit sequence of the sampled value (empty for `count = 0`). -/
def rand_digits (count draw : Nat) : List Nat :=
  if count = 0 then [] else natToDecimal (randDigitsVal count draw)

/-- Free function `transform_word` in `settings/mod.rs`.  `Titlecase`
and `InversedTitlecase` slice the word at BYTE index 1 (`word[..1]`,
`word[1..]`), which panics — modelled as `none` — when the word is
empty or its first character occupies more than one byte.  Case
mapping is modelled with `Char.toUpper`/`Char.toLower` (ASCII case
mapping; a single-byte first character is always ASCII). -/
def transform_word (word : List Char) (transform : WordTransform) :
    Option (List Char) :=
  match transform with
  | .Titlecase =>
    match word with
    | [] => none
    | c :: rest => if c.utf8Size = 1 then some (c.toUpper :: rest) else none
  | .Uppercase => some (word.map Char.toUpper)
  | .InversedTitlecase =>
    match word with
    | [] => none
    | c :: rest =>
      if c.utf8Size = 1 then some (c.toLower :: rest.map Char.toUpper) else none
  | _ => some (word.map Char.toLower)

/-- One iteration bundle of the reject-and-resample `loop` inside
`build_words_list`: draw indices starting at stream position `pos`
until one is absent from `marker` (the `index_marker` map), returning
the accepted index and the next stream position, or `none` once `fuel`
draws were rejected (the Rust loop is unbounded). -/
def pickFresh (rng : Nat → Nat) (len : Nat) (marker : List Nat) :
    Nat → Nat → Option (Nat × Nat)
  | 0, _ => none
  | fuel + 1, pos =>
    let idx := rng pos % len
    if idx ∈ marker then pickFresh rng len marker fuel (pos + 1)
    else some (idx, pos + 1)

/-- The `(0..self.words_count).map(|_| loop ...)` of the
enough-words branch of `build_words_list`: `k` words remain to be
drawn, `pos` is the stream position, `marker` the set of used
indices. -/
def sampleDistinct (pool : List (List Char)) (rng : Nat → Nat) (fuel : Nat) :
    Nat → Nat → List Nat → Option (List (List Char))
  | 0, _, _ => some []
  | k + 1, pos, marker =>
    match pickFresh rng pool.length marker fuel pos with
    | none => none
    | some (idx, pos2) =>
      match sampleDistinct pool rng fuel k pos2 (idx :: marker) with
      | none => none
      | some rest => some (pool.getD idx [] :: rest)

/-- `Settings::build_words_list`. -/
def Settings.build_words_list (s : Settings) (pool : List (List Char))
    (rng : Nat → Nat) (fuel : Nat) : Option (List (List Char)) :=
  if pool.isEmpty then some []
  else if pool.length < s.words_count then
    some ((List.range s.words_count).map fun k => pool.getD (rng k % pool.length) [])
  else
    sampleDistinct pool rng fuel s.words_count 0 []

/-- `Settings::ALL_SINGLE_WORD_TRANSFORMS`. -/
def ALL_SINGLE_WORD_TRANSFORMS : List WordTransform :=
  [.Lowercase, .Titlecase, .Uppercase, .InversedTitlecase]

/-- `Settings::build_transforms_list`.  In the fallback branch the
source builds `Uniform::from(0..whitelisted_transforms.len())`, which
panics — modelled as `none` — when the whitelist is empty (impossible
for settings built through the validating builder). -/
def Settings.build_transforms_list (s : Settings) (rng : Nat → Nat) :
    Option (List WordTransform) :=
  if hasFlag s.word_transforms .AltercaseLowerFirst then
    some ((List.range s.words_count).map fun idx =>
      if idx % 2 = 0 then .Lowercase else .Uppercase)
  else if hasFlag s.word_transforms .AltercaseUpperFirst then
    some ((List.range s.words_count).map fun idx =>
      if idx % 2 = 0 then .Uppercase else .Lowercase)
  else
    let whitelisted := ALL_SINGLE_WORD_TRANSFORMS.filter
      (fun t => hasFlag s.word_transforms t)
    if whitelisted.isEmpty then none
    else
      some ((List.range s.words_count).map fun k =>
        whitelisted.getD (rng k % whitelisted.length) .Lowercase)

/-- `Randomizer::rand_words`: sampled words zipped with the transforms
list, each rendered by `transform_word`.  Separate draw streams model
the independent `thread_rng` draws of the two phases. -/
def Settings.rand_words (s : Settings) (pool : List (List Char))
    (rngW rngT : Nat → Nat) (fuel : Nat) : Option (List (List Char)) :=
  match s.build_words_list pool rngW fuel with
  | none => none
  | some ws =>
    match s.build_transforms_list rngT with
    | none => none
    | some ts => (ws.zip ts).mapM fun wt => transform_word wt.1 wt.2

/-- `Randomizer::rand_separator`. -/
def Settings.rand_separator (s : Settings) (draw : Nat) :
    Option (List Char) :=
  rand_chars s.separators 1 draw

/-- `Randomizer::rand_prefix`: the pair (symbol block, digit block), in
that order. -/
def rand_prefix (s : Settings) (drawSym drawDig : Nat) :
    Option (List Char × List Nat) :=
  match rand_chars s.padding_symbols s.padding_symbol_lengths.1 drawSym with
  | none => none
  | some syms => some (syms, rand_digits s.padding_digits.1 drawDig)

/-- `Randomizer::rand_suffix`: the pair (digit block, symbol block), in
that order. -/
def rand_suffix (s : Settings) (drawSym drawDig : Nat) :
    Option (List Nat × List Char) :=
  match rand_chars s.padding_symbols s.padding_symbol_lengths.2 drawSym with
  | none => none
  | some syms => some (rand_digits s.padding_digits.2 drawDig, syms)

/-- `Randomizer::adjust_padding`. -/
def Settings.adjust_padding (s : Settings) (pass_length : Nat) (draw : Nat) :
    Option PaddingResult :=
  match s.padding_strategy with
  | .Fixed => some .Unchanged
  | .Adaptive len =>
    if len > pass_length then
      match rand_chars s.padding_symbols (len - pass_length) draw with
      | none => none
      | some syms => some (.Pad syms)
    else
      some (.TrimTo len)

/-- The settings values reachable from `Default::default()` or
`from_preset` by successful builder calls (§3 lifecycle). -/
inductive Reachable : Settings → Prop where
  | dflt : Reachable defaultSettings
  | preset (p : Preset) : Reachable (from_preset p)
  | wordsCount {s s' : Settings} {n : Nat} :
      Reachable s → s.with_words_count n = .ok s' → Reachable s'
  | wordLengths {s s' : Settings} {a b : Option Nat} :
      Reachable s → s.with_word_lengths a b = .ok s' → Reachable s'
  | seps {s : Settings} {cs : List Char} :
      Reachable s → Reachable (s.with_separators cs)
  | padDigits {s : Settings} {a b : Option Nat} :
      Reachable s → Reachable (s.with_padding_digits a b)
  | padSymbols {s : Settings} {cs : List Char} :
      Reachable s → Reachable (s.with_padding_symbols cs)
  | padSymbolLengths {s : Settings} {a b : Option Nat} :
      Reachable s → Reachable (s.with_padding_symbol_lengths a b)
  | padStrategy {s s' : Settings} {strat : PaddingStrategy} :
      Reachable s → s.with_padding_strategy strat = .ok s' → Reachable s'
  | wordTransforms {s s' : Settings} {fl : Nat} :
      Reachable s → s.with_word_transforms fl = .ok s' → Reachable s'

/-- The C2 invariant: an adaptive strategy always carries a positive
target and coexists only with zero padding symbol lengths. -/
def StrategyInv (s : Settings) : Prop :=
  ∀ t, s.padding_strategy = PaddingStrategy.Adaptive t →
    1 ≤ t ∧ s.padding_symbol_lengths = (0, 0)

lemma with_words_count_ok {s s' : Settings} {n : Nat}
    (h : s.with_words_count n = .ok s') :
    n ≠ 0 ∧ s' = { s with words_count := n } := by
  unfold Settings.with_words_count at h
  split at h
  · exact absurd h (by simp)
  · next hn => simp only [Except.ok.injEq] at h; exact ⟨hn, h.symm⟩

lemma with_word_lengths_ok {s s' : Settings} {a b : Option Nat}
    (h : s.with_word_lengths a b = .ok s') :
    s' = { s with word_lengths :=
      (Nat.min (a.getD s.word_lengths.1) (b.getD s.word_lengths.2),
       Nat.max (a.getD s.word_lengths.1) (b.getD s.word_lengths.2)) } := by
  simp only [Settings.with_word_lengths] at h
  split at h
  · exact absurd h (by simp)
  · split at h
    · exact absurd h (by simp)
    · simp only [Except.ok.injEq] at h; exact h.symm

lemma with_padding_strategy_ok {s s' : Settings} {strat : PaddingStrategy}
    (h : s.with_padding_strategy strat = .ok s') :
    strat ≠ PaddingStrategy.Adaptive 0 ∧
      s' = { s with padding_strategy := strat,
                    padding_symbol_lengths := (0, 0) } := by
  cases strat with
  | Fixed =>
    simp only [Settings.with_padding_strategy, Except.ok.injEq] at h
    exact ⟨by simp, h.symm⟩
  | Adaptive t =>
    cases t with
    | zero => simp [Settings.with_padding_strategy] at h
    | succ k =>
      simp only [Settings.with_padding_strategy, Except.ok.injEq] at h
      exact ⟨by simp, h.symm⟩

lemma with_word_transforms_ok {s s' : Settings} {fl : Nat}
    (h : s.with_word_transforms fl = .ok s') :
    ∃ tf, s' = { s with word_transforms := tf } := by
  unfold Settings.with_word_transforms at h
  split at h
  · simp only [Except.ok.injEq] at h; exact ⟨_, h.symm⟩
  · split at h
    · simp only [Except.ok.injEq] at h; exact ⟨_, h.symm⟩
    · split at h
      · exact absurd h (by simp)
      · simp only [Except.ok.injEq] at h; exact ⟨_, h.symm⟩

lemma with_padding_symbol_lengths_cases (s : Settings) (a b : Option Nat) :
    s.with_padding_symbol_lengths a b = s ∨
      (s.with_padding_symbol_lengths a b).padding_strategy =
        PaddingStrategy.Fixed := by
  unfold Settings.with_padding_symbol_lengths
  split
  · exact Or.inl rfl
  · exact Or.inr rfl

lemma strategyInv_reachable {s : Settings} (h : Reachable s) :
    StrategyInv s := by
  induction h with
  | dflt => intro t ht; exact absurd ht (by simp [defaultSettings])
  | preset p =>
    intro t ht
    cases p <;> (simp_all [from_preset, defaultSettings]; try omega)
  | wordsCount _ hok ih =>
    obtain ⟨-, rfl⟩ := with_words_count_ok hok
    intro t ht; exact ih t ht
  | wordLengths _ hok ih =>
    obtain rfl := with_word_lengths_ok hok
    intro t ht; exact ih t ht
  | seps _ ih => intro t ht; exact ih t ht
  | padDigits _ ih =>
    intro t ht
    revert ht
    unfold Settings.with_padding_digits
    split
    · exact ih t
    · exact ih t
  | padSymbols _ ih => intro t ht; exact ih t ht
  | padSymbolLengths hr ih =>
    rename_i s₀ a b
    rcases with_padding_symbol_lengths_cases s₀ a b with heq | hfix
    · rw [heq]; exact ih
    · intro t ht; rw [hfix] at ht; exact absurd ht (by simp)
  | padStrategy _ hok ih =>
    obtain ⟨hne, rfl⟩ := with_padding_strategy_ok hok
    intro t ht
    simp only at ht
    refine ⟨?_, rfl⟩
    rcases ht with rfl
    rcases Nat.eq_zero_or_pos t with rfl | hpos
    · exact absurd rfl hne
    · exact hpos
  | wordTransforms _ hok ih =>
    obtain ⟨tf, rfl⟩ := with_word_transforms_ok hok
    intro t ht; exact ih t ht

/-- C2: every settings value reachable from the default or a preset
through successful builder calls satisfies: an `Adaptive t` strategy
has `t ≥ 1` and `padding_symbol_lengths = (0, 0)`; moreover
`with_padding_strategy (Adaptive 0)` fails, every other strategy is
accepted and resets the symbol lengths to `(0, 0)`, and
`with_padding_symbol_lengths` with at least one side given forces the
strategy back to `Fixed`. -/
theorem c2_adaptive_strategy_invariant :
    (∀ s : Settings, Reachable s → StrategyInv s)
    ∧ (∀ s : Settings,
        s.with_padding_strategy (PaddingStrategy.Adaptive 0) =
          .error "invalid adaptive padding number")
    ∧ (∀ (s : Settings) (strat : PaddingStrategy),
        strat ≠ PaddingStrategy.Adaptive 0 →
        s.with_padding_strategy strat =
          .ok { s with padding_strategy := strat,
                       padding_symbol_lengths := (0, 0) })
    ∧ (∀ (s : Settings) (a b : Option Nat), a ≠ none ∨ b ≠ none →
        (s.with_padding_symbol_lengths a b).padding_strategy =
          PaddingStrategy.Fixed) := by
  refine ⟨fun s h => strategyInv_reachable h, fun s => rfl, ?_, ?_⟩
  · intro s strat hne
    cases strat with
    | Fixed => rfl
    | Adaptive t =>
      cases t with
      | zero => exact absurd rfl hne
      | succ k => rfl
  · intro s a b hab
    unfold Settings.with_padding_symbol_lengths
    split
    · next hcon => exact absurd hcon (by tauto)
    · rfl

theorem c2_witness :
    (1 ≤ 63 ∧ (from_preset Preset.Wifi).padding_symbol_lengths = (0, 0))
    ∧ defaultSettings.with_padding_strategy (PaddingStrategy.Adaptive 5) =
        .ok { defaultSettings with
              padding_strategy := PaddingStrategy.Adaptive 5,
              padding_symbol_lengths := (0, 0) }
    ∧ (defaultSettings.with_padding_symbol_lengths (some 1) none).padding_strategy =
        PaddingStrategy.Fixed :=
  ⟨c2_adaptive_strategy_invariant.1 (from_preset Preset.Wifi)
      (Reachable.preset Preset.Wifi) 63 rfl,
   c2_adaptive_strategy_invariant.2.2.1 defaultSettings
      (PaddingStrategy.Adaptive 5) (by simp),
   c2_adaptive_strategy_invariant.2.2.2 defaultSettings (some 1) none
      (Or.inl (by simp))⟩

/-- C3: `with_word_lengths` first orders the supplied pair (a missing
side defaulting to the current value), then reports the short-bound
error whenever the resulting min is below 4 — also when both bounds
are violated — then the long-bound error whenever the resulting max
exceeds 10; `with_word_lengths (6, 4)` succeeds with `(4, 6)`. -/
theorem c3_with_word_lengths_order_and_errors :
    (∀ (s : Settings) (a b : Option Nat),
        Nat.min (a.getD s.word_lengths.1) (b.getD s.word_lengths.2) <
          MIN_WORD_LENGTH →
        s.with_word_lengths a b = .error MIN_WORD_LENGTH_ERR)
    ∧ (∀ (s : Settings) (a b : Option Nat),
        MIN_WORD_LENGTH ≤
          Nat.min (a.getD s.word_lengths.1) (b.getD s.word_lengths.2) →
        MAX_WORD_LENGTH <
          Nat.max (a.getD s.word_lengths.1) (b.getD s.word_lengths.2) →
        s.with_word_lengths a b = .error MAX_WORD_LENGTH_ERR)
    ∧ (∀ (s : Settings) (a b : Option Nat),
        MIN_WORD_LENGTH ≤
          Nat.min (a.getD s.word_lengths.1) (b.getD s.word_lengths.2) →
        Nat.max (a.getD s.word_lengths.1) (b.getD s.word_lengths.2) ≤
          MAX_WORD_LENGTH →
        s.with_word_lengths a b =
          .ok { s with word_lengths :=
            (Nat.min (a.getD s.word_lengths.1) (b.getD s.word_lengths.2),
             Nat.max (a.getD s.word_lengths.1) (b.getD s.word_lengths.2)) })
    ∧ defaultSettings.with_word_lengths (some 3) (some 11) =
        .error MIN_WORD_LENGTH_ERR
    ∧ defaultSettings.with_word_lengths (some 4) (some 11) =
        .error MAX_WORD_LENGTH_ERR
    ∧ defaultSettings.with_word_lengths (some 6) (some 4) =
        .ok { defaultSettings with word_lengths := (4, 6) } := by
  refine ⟨?_, ?_, ?_, rfl, rfl, rfl⟩
  · intro s a b h
    simp only [Settings.with_word_lengths]
    rw [if_pos h]
  · intro s a b h1 h2
    simp only [Settings.with_word_lengths]
    rw [if_neg (by omega), if_pos h2]
  · intro s a b h1 h2
    simp only [Settings.with_word_lengths]
    rw [if_neg (by omega), if_neg (by omega)]

theorem c3_witness :
    defaultSettings.with_word_lengths (some 5) (some 9) =
      .ok { defaultSettings with word_lengths := (5, 9) } :=
  c3_with_word_lengths_order_and_errors.2.2.1 defaultSettings
    (some 5) (some 9) (by decide) (by decide)

/-- C9: each builder operation is pure (the receiver is an immutable
value in the embedding) and, on success, the returned settings value
is exactly the receiver with only the documented field(s) replaced, as
expressed by the record updates below. -/
theorem c9_builder_frame :
    (∀ (s s' : Settings) (n : Nat), s.with_words_count n = .ok s' →
        s' = { s with words_count := n })
    ∧ (∀ (s s' : Settings) (a b : Option Nat),
        s.with_word_lengths a b = .ok s' →
        s' = { s with word_lengths :=
          (Nat.min (a.getD s.word_lengths.1) (b.getD s.word_lengths.2),
           Nat.max (a.getD s.word_lengths.1) (b.getD s.word_lengths.2)) })
    ∧ (∀ (s : Settings) (cs : List Char),
        s.with_separators cs = { s with separators := cs })
    ∧ (∀ s : Settings, s.with_padding_digits none none = s)
    ∧ (∀ (s : Settings) (a b : Option Nat), a ≠ none ∨ b ≠ none →
        s.with_padding_digits a b =
          { s with padding_digits :=
            (a.getD s.padding_digits.1, b.getD s.padding_digits.2) })
    ∧ (∀ (s : Settings) (cs : List Char),
        s.with_padding_symbols cs = { s with padding_symbols := cs })
    ∧ (∀ s : Settings, s.with_padding_symbol_lengths none none = s)
    ∧ (∀ (s : Settings) (a b : Option Nat), a ≠ none ∨ b ≠ none →
        s.with_padding_symbol_lengths a b =
          { s with
            padding_symbol_lengths := (a.getD s.padding_symbol_lengths.1, b.getD s.padding_symbol_lengths.2)
            padding_strategy := PaddingStrategy.Fixed })
    ∧ (∀ (s s' : Settings) (strat : PaddingStrategy),
        s.with_padding_strategy strat = .ok s' →
        s' = { s with padding_strategy := strat,
                      padding_symbol_lengths := (0, 0) })
    ∧ (∀ (s s' : Settings) (fl : Nat), s.with_word_transforms fl = .ok s' →
        ∃ tf, s' = { s with word_transforms := tf }) := by
  refine ⟨?_, ?_, fun s cs => rfl, fun s => rfl, ?_, fun s cs => rfl,
    fun s => rfl, ?_, ?_, ?_⟩
  · exact fun s s' n h => (with_words_count_ok h).2
  · exact fun s s' a b h => with_word_lengths_ok h
  · intro s a b hab
    unfold Settings.with_padding_digits
    split
    · next hcon => exact absurd hcon (by tauto)
    · rfl
  · intro s a b hab
    unfold Settings.with_padding_symbol_lengths
    split
    · next hcon => exact absurd hcon (by tauto)
    · rfl
  · exact fun s s' strat h => (with_padding_strategy_ok h).2
  · exact fun s s' fl h => with_word_transforms_ok h

theorem c9_witness :
    defaultSettings.with_words_count 5 =
      .ok { defaultSettings with words_count := 5 }
    ∧ defaultSettings.with_padding_digits (some 1) none =
      { defaultSettings with padding_digits := (1, 2) } :=
  ⟨(c9_builder_frame.1 defaultSettings
      { defaultSettings with words_count := 5 } 5 rfl).symm ▸ rfl,
   c9_builder_frame.2.2.2.2.1 defaultSettings (some 1) none
      (Or.inl (by simp))⟩

/-- C4: whenever the supplied flags contain an altercase group flag,
`with_word_transforms` succeeds and stores a present altercase group
flag alone, discarding all single-word flags; the transforms list for
an altercase policy is the deterministic alternation (independent of
the draw stream): under `AltercaseUpperFirst`, even 0-based index →
`Uppercase`, odd → `Lowercase` (so `[Upper, Lower, Upper, Lower]` for
4 words); under `AltercaseLowerFirst`, the reverse. -/
theorem c4_altercase_priority_and_alternation :
    (∀ (s : Settings) (flags : Nat),
        hasFlag flags WordTransform.AltercaseLowerFirst = true →
        s.with_word_transforms flags =
          .ok { s with word_transforms := WordTransform.AltercaseLowerFirst.val })
    ∧ (∀ (s : Settings) (flags : Nat),
        hasFlag flags WordTransform.AltercaseLowerFirst = false →
        hasFlag flags WordTransform.AltercaseUpperFirst = true →
        s.with_word_transforms flags =
          .ok { s with word_transforms := WordTransform.AltercaseUpperFirst.val })
    ∧ (∀ (s : Settings) (rng : Nat → Nat),
        s.word_transforms = WordTransform.AltercaseUpperFirst.val →
        s.build_transforms_list rng =
          some ((List.range s.words_count).map fun idx =>
            if idx % 2 = 0 then WordTransform.Uppercase else WordTransform.Lowercase))
    ∧ (∀ (s : Settings) (rng : Nat → Nat),
        s.word_transforms = WordTransform.AltercaseLowerFirst.val →
        s.build_transforms_list rng =
          some ((List.range s.words_count).map fun idx =>
            if idx % 2 = 0 then WordTransform.Lowercase else WordTransform.Uppercase))
    ∧ (∀ rng : Nat → Nat,
        Settings.build_transforms_list
          { defaultSettings with
            words_count := 4
            word_transforms := WordTransform.AltercaseUpperFirst.val } rng =
          some [WordTransform.Uppercase, WordTransform.Lowercase,
                WordTransform.Uppercase, WordTransform.Lowercase]) := by
  refine ⟨?_, ?_, ?_, ?_, ?_⟩
  · intro s flags h
    unfold Settings.with_word_transforms
    rw [if_pos h]
  · intro s flags h1 h2
    unfold Settings.with_word_transforms
    rw [if_neg (by simp [h1]), if_pos h2]
  · intro s rng h
    unfold Settings.build_transforms_list
    rw [h]
    rw [if_neg (by decide), if_pos (by decide)]
  · intro s rng h
    unfold Settings.build_transforms_list
    rw [h]
    rw [if_pos (by decide)]
  · intro rng
    rfl

theorem c4_witness :
    Settings.with_word_transforms defaultSettings 33 =
      .ok { defaultSettings with word_transforms := 32 }
    ∧ Settings.build_transforms_list
        { defaultSettings with words_count := 4, word_transforms := 32 }
        (fun k => k) =
        some [WordTransform.Uppercase, WordTransform.Lowercase,
              WordTransform.Uppercase, WordTransform.Lowercase] :=
  ⟨c4_altercase_priority_and_alternation.2.1 defaultSettings 33
      (by decide) (by decide),
   c4_altercase_priority_and_alternation.2.2.2.2 (fun k => k)⟩

/-- C10: when both altercase group flags are supplied (with or without
single-word flags), `with_word_transforms` succeeds and the stored
transform set is exactly `AltercaseLowerFirst` alone — the lower-first
flag is tested first, so it wins and everything else is discarded. -/
theorem c10_both_altercase_lower_first_wins :
    ∀ (s : Settings) (flags : Nat),
      hasFlag flags WordTransform.AltercaseLowerFirst = true →
      hasFlag flags WordTransform.AltercaseUpperFirst = true →
      s.with_word_transforms flags =
        .ok { s with word_transforms := WordTransform.AltercaseLowerFirst.val } := by
  intro s flags h1 _
  unfold Settings.with_word_transforms
  rw [if_pos h1]

theorem c10_witness :
    Settings.with_word_transforms defaultSettings 49 =
      .ok { defaultSettings with word_transforms := 16 } :=
  c10_both_altercase_lower_first_wins defaultSettings 49 (by decide) (by decide)

lemma pickFresh_spec {rng : Nat → Nat} {len : Nat} {marker : List Nat} :
    ∀ {fuel pos idx pos2 : Nat}, 0 < len →
    pickFresh rng len marker fuel pos = some (idx, pos2) →
    idx < len ∧ idx ∉ marker := by
  intro fuel
  induction fuel with
  | zero => intro pos idx pos2 _ h; simp [pickFresh] at h
  | succ k ih =>
    intro pos idx pos2 hlen h
    simp only [pickFresh] at h
    by_cases hm : rng pos % len ∈ marker
    · rw [if_pos hm] at h
      exact ih hlen h
    · rw [if_neg hm] at h
      simp only [Option.some.injEq, Prod.mk.injEq] at h
      obtain ⟨h1, -⟩ := h
      subst h1
      exact ⟨Nat.mod_lt _ hlen, hm⟩

lemma sampleDistinct_spec {pool : List (List Char)} {rng : Nat → Nat}
    {fuel : Nat} (hlen : 0 < pool.length) :
    ∀ (k pos : Nat) (marker : List Nat) (ws : List (List Char)),
    sampleDistinct pool rng fuel k pos marker = some ws →
    ∃ idxs : List Nat, ws = idxs.map (fun i => pool.getD i []) ∧
      idxs.length = k ∧ idxs.Nodup ∧
      ∀ i ∈ idxs, i < pool.length ∧ i ∉ marker := by
  intro k
  induction k with
  | zero =>
    intro pos marker ws h
    simp only [sampleDistinct, Option.some.injEq] at h
    exact ⟨[], by simp [h.symm]⟩
  | succ n ih =>
    intro pos marker ws h
    simp only [sampleDistinct] at h
    cases hp : pickFresh rng pool.length marker fuel pos with
    | none => rw [hp] at h; cases h
    | some ip =>
      obtain ⟨idx, pos2⟩ := ip
      rw [hp] at h
      dsimp only at h
      cases hr : sampleDistinct pool rng fuel n pos2 (idx :: marker) with
      | none => rw [hr] at h; cases h
      | some rest =>
        rw [hr] at h
        simp only [Option.some.injEq] at h
        obtain ⟨hidx_lt, hidx_nm⟩ := pickFresh_spec hlen hp
        obtain ⟨idxs, hws, hlen', hnd, hmem⟩ := ih pos2 (idx :: marker) rest hr
        refine ⟨idx :: idxs, ?_, by simp [hlen'], ?_, ?_⟩
        · rw [← h, hws]; rfl
        · refine List.nodup_cons.mpr ⟨?_, hnd⟩
          intro hin
          exact (hmem idx hin).2 (List.mem_cons_self idx marker)
        · intro i hi
          rcases List.mem_cons.mp hi with rfl | hin
          · exact ⟨hidx_lt, hidx_nm⟩
          · refine ⟨(hmem i hin).1, fun hm => (hmem i hin).2 ?_⟩
            exact List.mem_cons_of_mem idx hm

/-- C1: `build_words_list` returns the empty list for an empty pool
regardless of `words_count`; when `0 < pool.length < words_count` it
returns exactly `words_count` words, the `k`-th being the pool entry
at the `k`-th independent draw (with replacement, so duplicates can
occur and the output distribution is the draw distribution); and when
`pool.length ≥ words_count > 0` every returned list (the
reject-and-resample loop succeeding within its fuel) has exactly
`words_count` words occupying `words_count` distinct in-range pool
indices, in draw order. -/
theorem c1_build_words_list :
    (∀ (s : Settings) (rng : Nat → Nat) (fuel : Nat),
        s.build_words_list [] rng fuel = some [])
    ∧ (∀ (s : Settings) (pool : List (List Char)) (rng : Nat → Nat)
          (fuel : Nat), pool ≠ [] → pool.length < s.words_count →
        s.build_words_list pool rng fuel =
          some ((List.range s.words_count).map fun k =>
            pool.getD (rng k % pool.length) []))
    ∧ (∀ (s : Settings) (pool : List (List Char)) (rng : Nat → Nat)
          (fuel : Nat) (ws : List (List Char)),
        0 < s.words_count → s.words_count ≤ pool.length →
        s.build_words_list pool rng fuel = some ws →
        ws.length = s.words_count ∧
          ∃ idxs : List Nat, idxs.Nodup ∧ idxs.length = s.words_count ∧
            (∀ i ∈ idxs, i < pool.length) ∧
            ws = idxs.map fun i => pool.getD i []) := by
  refine ⟨fun s rng fuel => rfl, ?_, ?_⟩
  · intro s pool rng fuel hne hlt
    unfold Settings.build_words_list
    rw [if_neg (by simp [hne]), if_pos hlt]
  · intro s pool rng fuel ws hwc hle h
    unfold Settings.build_words_list at h
    have hpos : 0 < pool.length := lt_of_lt_of_le hwc hle
    rw [if_neg (by simp [List.ne_nil_of_length_pos hpos]),
        if_neg (by omega)] at h
    obtain ⟨idxs, hws, hlen', hnd, hmem⟩ := sampleDistinct_spec hpos _ _ _ _ h
    exact ⟨by rw [hws, List.length_map, hlen'],
      idxs, hnd, hlen', fun i hi => (hmem i hi).1, hws⟩

theorem c1_witness :
    defaultSettings.build_words_list [['a'], ['b']] (fun k => k) 1 =
      some [['a'], ['b'], ['a']]
    ∧ (([['a'], ['b'], ['c']] : List (List Char)).length =
        defaultSettings.words_count ∧
      ∃ idxs : List Nat, idxs.Nodup ∧
        idxs.length = defaultSettings.words_count ∧
        (∀ i ∈ idxs, i < ([['a'], ['b'], ['c'], ['d']] : List (List Char)).length) ∧
        [['a'], ['b'], ['c']] =
          idxs.map fun i => [['a'], ['b'], ['c'], ['d']].getD i []) := by
  constructor
  · have h := c1_build_words_list.2.1 defaultSettings [['a'], ['b']]
      (fun k => k) 1 (by decide) (by decide)
    rw [h]; rfl
  · exact c1_build_words_list.2.2 defaultSettings [['a'], ['b'], ['c'], ['d']]
      (fun k => k) 1 [['a'], ['b'], ['c']] (by decide) (by decide) (by rfl)

lemma utf8ByteLen_ascii {pool : List Char}
    (h : ∀ c ∈ pool, c.utf8Size = 1) : utf8ByteLen pool = pool.length := by
  induction pool with
  | nil => rfl
  | cons c cs ih =>
    have hc := h c (List.mem_cons_self c cs)
    have ihs := ih fun x hx => h x (List.mem_cons_of_mem c hx)
    simp only [utf8ByteLen, List.map_cons, List.sum_cons, hc] at *
    simp [ihs]
    omega

lemma rand_chars_ascii {pool : List Char} (hne : pool ≠ [])
    (ha : ∀ c ∈ pool, c.utf8Size = 1) (count draw : Nat) :
    ∃ c ∈ pool, rand_chars pool count draw = some (List.replicate count c) := by
  have hlen : 0 < pool.length := List.length_pos.mpr hne
  have hb : utf8ByteLen pool = pool.length := utf8ByteLen_ascii ha
  have hidx : draw % utf8ByteLen pool < pool.length := by
    rw [hb]; exact Nat.mod_lt _ hlen
  unfold rand_chars
  rw [if_neg (by simp [hne])]
  cases hg : pool.get? (draw % utf8ByteLen pool) with
  | none =>
    rw [List.get?_eq_none] at hg
    omega
  | some c => exact ⟨c, List.get?_mem hg, rfl⟩

lemma rand_chars_some_shape {pool : List Char} {count draw : Nat}
    {res : List Char} (h : rand_chars pool count draw = some res) :
    (pool = [] → res = []) ∧
      (pool ≠ [] → ∃ c ∈ pool, res = List.replicate count c) := by
  constructor
  · rintro rfl
    simp only [rand_chars, List.isEmpty_nil, if_true, Option.some.injEq] at h
    exact h.symm
  · intro hne
    unfold rand_chars at h
    rw [if_neg (by simp [hne])] at h
    cases hg : pool.get? (draw % utf8ByteLen pool) with
    | none => rw [hg] at h; cases h
    | some c =>
      rw [hg] at h
      simp only [Option.some.injEq] at h
      exact ⟨c, List.get?_mem hg, h.symm⟩

/-- C5 counterexample: with an empty symbol pool (reachable, e.g. the
XKCD preset or `with_padding_symbols ""`) and strategy `Adaptive 10`,
`adjust_padding` at pre-padding length 6 returns a pad decision
carrying the empty string — not the `10 - 6 = 4` symbol characters the
claim requires for every policy. -/
theorem c5_counterexample :
    Settings.adjust_padding
      { defaultSettings with
        padding_symbols := []
        padding_strategy := PaddingStrategy.Adaptive 10 } 6 0 =
      some (PaddingResult.Pad [])
    ∧ ([] : List Char).length ≠ 10 - 6 :=
  ⟨rfl, by decide⟩

/-- C5 (amended): `adjust_padding`'s decision kind is fully determined
by the strategy and the pre-padding length: `Fixed` always yields the
unchanged decision; `Adaptive target` with `target ≤ current` yields a
trim decision to exactly `target`; `Adaptive target` with
`target > current` yields a pad decision, which carries exactly
`target - current` copies of one randomly chosen pool symbol whenever
the symbol pool is nonempty (and ASCII, so the char lookup cannot
panic), and carries the empty string when the symbol pool is empty. -/
theorem c5_adjust_padding_decision :
    (∀ (s : Settings) (len draw : Nat),
        s.padding_strategy = PaddingStrategy.Fixed →
        s.adjust_padding len draw = some PaddingResult.Unchanged)
    ∧ (∀ (s : Settings) (t len draw : Nat),
        s.padding_strategy = PaddingStrategy.Adaptive t → len < t →
        s.padding_symbols = [] →
        s.adjust_padding len draw = some (PaddingResult.Pad []))
    ∧ (∀ (s : Settings) (t len draw : Nat),
        s.padding_strategy = PaddingStrategy.Adaptive t → len < t →
        s.padding_symbols ≠ [] →
        (∀ c ∈ s.padding_symbols, c.utf8Size = 1) →
        ∃ c ∈ s.padding_symbols,
          s.adjust_padding len draw =
            some (PaddingResult.Pad (List.replicate (t - len) c)))
    ∧ (∀ (s : Settings) (t len draw : Nat),
        s.padding_strategy = PaddingStrategy.Adaptive t → t ≤ len →
        s.adjust_padding len draw = some (PaddingResult.TrimTo t)) := by
  refine ⟨?_, ?_, ?_, ?_⟩
  · intro s len draw h
    unfold Settings.adjust_padding
    rw [h]
  · intro s t len draw hs hlt hsym
    unfold Settings.adjust_padding
    rw [hs]
    dsimp only
    rw [if_pos hlt, hsym]
    rfl
  · intro s t len draw hs hlt hne ha
    obtain ⟨c, hc, heq⟩ := rand_chars_ascii hne ha (t - len) draw
    refine ⟨c, hc, ?_⟩
    unfold Settings.adjust_padding
    rw [hs]
    dsimp only
    rw [if_pos hlt, heq]
  · intro s t len draw hs hle
    unfold Settings.adjust_padding
    rw [hs]
    dsimp only
    rw [if_neg (by omega)]

theorem c5_witness :
    defaultSettings.adjust_padding 99 0 = some PaddingResult.Unchanged
    ∧ (∃ c ∈ ({ defaultSettings with
          padding_strategy := PaddingStrategy.Adaptive 10 } : Settings).padding_symbols,
        Settings.adjust_padding
          { defaultSettings with
            padding_strategy := PaddingStrategy.Adaptive 10 } 6 0 =
          some (PaddingResult.Pad (List.replicate (10 - 6) c)))
    ∧ Settings.adjust_padding
        { defaultSettings with
          padding_strategy := PaddingStrategy.Adaptive 10 } 12 0 =
        some (PaddingResult.TrimTo 10) :=
  ⟨c5_adjust_padding_decision.1 defaultSettings 99 0 rfl,
   c5_adjust_padding_decision.2.2.1 _ 10 6 0 rfl (by decide) (by decide)
     (by decide),
   c5_adjust_padding_decision.2.2.2 _ 10 12 0 rfl (by decide)⟩

/-- C8: `rand_prefix` returns (symbol block, digit block) in that
order and `rand_suffix` returns (digit block, symbol block) —
asymmetric by design; every symbol block produced by `rand_chars` is
one single randomly chosen pool character repeated `count` times (the
same character at every position), and is empty when the count is zero
or the pool is empty; the digit block is empty when its count is
zero. -/
theorem c8_prefix_suffix_block_order :
    (∀ (pool : List Char) (count draw : Nat) (res : List Char),
        rand_chars pool count draw = some res →
        (pool = [] → res = []) ∧
          (pool ≠ [] → ∃ c ∈ pool, res = List.replicate count c))
    ∧ (∀ (pool : List Char) (draw : Nat) (res : List Char),
        rand_chars pool 0 draw = some res → res = [])
    ∧ (∀ draw : Nat, rand_digits 0 draw = [])
    ∧ (∀ (s : Settings) (d1 d2 : Nat) (syms : List Char) (digs : List Nat),
        rand_prefix s d1 d2 = some (syms, digs) →
        rand_chars s.padding_symbols s.padding_symbol_lengths.1 d1 =
            some syms ∧
          digs = rand_digits s.padding_digits.1 d2)
    ∧ (∀ (s : Settings) (d1 d2 : Nat) (digs : List Nat) (syms : List Char),
        rand_suffix s d1 d2 = some (digs, syms) →
        rand_chars s.padding_symbols s.padding_symbol_lengths.2 d1 =
            some syms ∧
          digs = rand_digits s.padding_digits.2 d2) := by
  refine ⟨fun pool count draw res h => rand_chars_some_shape h, ?_,
    fun draw => rfl, ?_, ?_⟩
  · intro pool draw res h
    have := rand_chars_some_shape h
    by_cases hp : pool = []
    · exact this.1 hp
    · obtain ⟨c, -, rfl⟩ := this.2 hp
      rfl
  · intro s d1 d2 syms digs h
    unfold rand_prefix at h
    cases hg : rand_chars s.padding_symbols s.padding_symbol_lengths.1 d1 with
    | none => rw [hg] at h; cases h
    | some res =>
      rw [hg] at h
      simp only [Option.some.injEq, Prod.mk.injEq] at h
      obtain ⟨h1, h2⟩ := h
      subst h1
      exact ⟨rfl, h2.symm⟩
  · intro s d1 d2 digs syms h
    unfold rand_suffix at h
    cases hg : rand_chars s.padding_symbols s.padding_symbol_lengths.2 d1 with
    | none => rw [hg] at h; cases h
    | some res =>
      rw [hg] at h
      simp only [Option.some.injEq, Prod.mk.injEq] at h
      obtain ⟨h1, h2⟩ := h
      subst h2
      exact ⟨rfl, h1.symm⟩

theorem c8_witness :
    rand_chars defaultSettings.padding_symbols
        defaultSettings.padding_symbol_lengths.2 0 = some ['~', '~']
    ∧ ([1, 0] : List Nat) = rand_digits defaultSettings.padding_digits.2 0 :=
  c8_prefix_suffix_block_order.2.2.2.2 defaultSettings 0 0 [1, 0] ['~', '~']
    (by decide)

lemma decDigitsAux_eq_digits :
    ∀ fuel n : Nat, n ≤ fuel → decDigitsAux fuel n = Nat.digits 10 n := by
  intro fuel
  induction fuel with
  | zero =>
    intro n hn
    obtain rfl : n = 0 := Nat.le_zero.mp hn
    simp [decDigitsAux]
  | succ f ih =>
    intro n hn
    by_cases h0 : n = 0
    · subst h0; simp [decDigitsAux]
    · have hpos : 0 < n := Nat.pos_of_ne_zero h0
      have hlt : n / 10 < n := Nat.div_lt_self hpos (by norm_num)
      simp only [decDigitsAux, if_neg h0]
      rw [ih (n / 10) (by omega),
        Nat.digits_def' (by norm_num : (1 : Nat) < 10) hpos]

lemma natToDecimal_eq_digits (n : Nat) :
    natToDecimal n = (Nat.digits 10 n).reverse := by
  unfold natToDecimal
  rw [decDigitsAux_eq_digits n n le_rfl]

lemma natToDecimal_length {w v : Nat} (hw : 1 ≤ w)
    (h1 : 10 ^ (w - 1) ≤ v) (h2 : v < 10 ^ w) :
    (natToDecimal v).length = w := by
  have hv : v ≠ 0 := by
    have : 0 < 10 ^ (w - 1) := pow_pos (by norm_num) _
    omega
  rw [natToDecimal_eq_digits, List.length_reverse,
    Nat.digits_len 10 v (by norm_num) hv]
  have hlog : Nat.log 10 v = w - 1 :=
    Nat.log_eq_of_pow_le_of_lt_pow h1
      (by rw [Nat.sub_add_cancel hw]; exact h2)
  omega

lemma natToDecimal_head_ne_zero {v : Nat} (hv : v ≠ 0) :
    (natToDecimal v).head? ≠ some 0 := by
  rw [natToDecimal_eq_digits, List.head?_reverse]
  have hne : Nat.digits 10 v ≠ [] := Nat.digits_ne_nil_iff_ne_zero.mpr hv
  rw [List.getLast?_eq_getLast_of_ne_nil hne]
  intro hcon
  simp only [Option.some.injEq] at hcon
  exact Nat.getLast_digit_ne_zero 10 hv hcon

lemma min20_left {count : Nat} (h : 20 ≤ count) : Nat.min 20 count = 20 :=
  min_eq_left h

lemma min20_right {count : Nat} (h : count ≤ 20) : Nat.min 20 count = count :=
  min_eq_right h

lemma one_le_min20 {count : Nat} (h : 1 ≤ count) : 1 ≤ Nat.min 20 count :=
  le_min (by norm_num) h

lemma randDigitsUpper_gt {count : Nat} (h : 1 ≤ count) :
    randDigitsLower count < randDigitsUpper count := by
  unfold randDigitsLower randDigitsUpper
  rcases le_or_lt 20 count with h20 | h20
  · rw [min20_left h20, if_pos rfl]
    norm_num
  · have hcond : ¬ count = 20 := by omega
    rw [min20_right (by omega), if_neg hcond]
    exact Nat.pow_lt_pow_right (by norm_num) (by omega)

lemma randDigitsVal_range {count : Nat} (h : 1 ≤ count) (draw : Nat) :
    randDigitsLower count ≤ randDigitsVal count draw ∧
      randDigitsVal count draw < randDigitsUpper count := by
  have hlt := randDigitsUpper_gt h
  unfold randDigitsVal
  have hmod : draw % (randDigitsUpper count - randDigitsLower count) <
      randDigitsUpper count - randDigitsLower count :=
    Nat.mod_lt _ (by omega)
  omega

lemma randDigitsUpper_le_pow (count : Nat) :
    randDigitsUpper count ≤ 10 ^ Nat.min 20 count := by
  unfold randDigitsUpper
  split
  · next h20 => rw [h20]; norm_num
  · exact le_rfl

/-- C7 counterexample: for digit count 20 the code samples from
`[10^19, u64::MAX)` with `u64::MAX = 2^64 - 1 < 10^20`, not from the
full range `[10^19, 10^20)` of 20-digit numbers the claim specifies;
in particular the draw that would produce the 20-digit value
`10^20 - 1` under the claimed range produces something else. -/
theorem c7_counterexample :
    randDigitsUpper 20 < 10 ^ 20
    ∧ randDigitsUpper 20 ≠ 10 ^ 20
    ∧ randDigitsVal 20 (10 ^ 20 - 1 - 10 ^ 19) ≠ 10 ^ 20 - 1 :=
  ⟨by decide, by decide, by decide⟩

/-- C7 (amended): `rand_digits d` is empty exactly when `d = 0`; for
`d ≥ 1` it is the decimal numeral — exactly `w = min d 20` digits,
non-zero leading digit — of a value drawn from `[10^(w-1), 10^w)` when
`w ≤ 19` and from `[10^19, 2^64 - 1)` when `w = 20` (counts above 20
are reduced to width 20, and width 20 samples below `u64::MAX` to stay
within the 64-bit domain); every value of the sampling range is
reachable by some draw. -/
theorem c7_rand_digits_width_and_range :
    (∀ draw : Nat, rand_digits 0 draw = [])
    ∧ (∀ count draw : Nat, 1 ≤ count → rand_digits count draw ≠ [])
    ∧ (∀ count draw : Nat, 1 ≤ count →
        (rand_digits count draw).length = Nat.min 20 count)
    ∧ (∀ count draw : Nat, 1 ≤ count →
        (rand_digits count draw).head? ≠ some 0)
    ∧ (∀ count draw : Nat, 1 ≤ count →
        randDigitsLower count ≤ randDigitsVal count draw ∧
          randDigitsVal count draw < randDigitsUpper count)
    ∧ (∀ count v : Nat, 1 ≤ count → randDigitsLower count ≤ v →
        v < randDigitsUpper count → ∃ draw, randDigitsVal count draw = v)
    ∧ (∀ count : Nat, 1 ≤ count → count ≤ 19 →
        randDigitsLower count = 10 ^ (count - 1) ∧
          randDigitsUpper count = 10 ^ count)
    ∧ (∀ count : Nat, 20 ≤ count →
        randDigitsLower count = 10 ^ 19 ∧
          randDigitsUpper count = 2 ^ 64 - 1) := by
  have hlen : ∀ count draw : Nat, 1 ≤ count →
      (rand_digits count draw).length = Nat.min 20 count := by
    intro count draw h
    have hr := randDigitsVal_range h draw
    unfold rand_digits
    rw [if_neg (by omega)]
    refine natToDecimal_length (one_le_min20 h) hr.1 ?_
    exact lt_of_lt_of_le hr.2 (randDigitsUpper_le_pow count)
  refine ⟨fun draw => rfl, ?_, hlen, ?_, fun count draw h =>
    randDigitsVal_range h draw, ?_, ?_, ?_⟩
  · intro count draw h
    have := hlen count draw h
    intro hnil
    rw [hnil] at this
    simp at this
    have h1 := one_le_min20 h
    omega
  · intro count draw h
    have hr := randDigitsVal_range h draw
    have hpos : 0 < randDigitsLower count := by
      unfold randDigitsLower
      exact pow_pos (by norm_num) _
    unfold rand_digits
    rw [if_neg (by omega)]
    exact natToDecimal_head_ne_zero (by omega)
  · intro count v h h1 h2
    refine ⟨v - randDigitsLower count, ?_⟩
    unfold randDigitsVal
    rw [Nat.mod_eq_of_lt (by omega)]
    omega
  · intro count h1 h19
    have hcond : ¬ count = 20 := by omega
    unfold randDigitsLower randDigitsUpper
    rw [min20_right (by omega), if_neg hcond]
    exact ⟨rfl, rfl⟩
  · intro count h20
    unfold randDigitsLower randDigitsUpper
    rw [min20_left h20, if_pos rfl]
    exact ⟨rfl, rfl⟩

theorem c7_witness :
    (rand_digits 2 0).length = Nat.min 20 2
    ∧ (∃ draw, randDigitsVal 2 draw = 55)
    ∧ (randDigitsLower 2 = 10 ^ 1 ∧ randDigitsUpper 2 = 10 ^ 2)
    ∧ (randDigitsLower 25 = 10 ^ 19 ∧ randDigitsUpper 25 = 2 ^ 64 - 1) :=
  ⟨c7_rand_digits_width_and_range.2.2.1 2 0 (by decide),
   c7_rand_digits_width_and_range.2.2.2.2.2.1 2 55 (by decide) (by decide)
     (by decide),
   c7_rand_digits_width_and_range.2.2.2.2.2.2.1 2 (by decide) (by decide),
   c7_rand_digits_width_and_range.2.2.2.2.2.2.2 25 (by decide)⟩

/-- C6: evaluation of the embedded code at the failing input.  The
policy `default().with_word_transforms(Titlecase)` is valid (the
builder accepts it), yet `rand_words` on the pool `["éa"]` — a UTF-8
word whose first character occupies two bytes — hits the byte slice
`word[..1]` inside `transform_word`'s `Titlecase` arm, which is not a
char boundary and panics in Rust (modelled as `none`), contradicting
the claim that generation-time operations never panic for UTF-8
pools. -/
theorem c6_utf8_titlecase_panics :
    defaultSettings.with_word_transforms WordTransform.Titlecase.val =
      .ok { defaultSettings with word_transforms := WordTransform.Titlecase.val }
    ∧ transform_word "éa".toList WordTransform.Titlecase = none
    ∧ Settings.rand_words
        { defaultSettings with word_transforms := WordTransform.Titlecase.val }
        ["éa".toList] (fun _ => 0) (fun _ => 0) 1 = none :=
  ⟨rfl, by decide, by decide⟩
